import Mathlib

/-!
Verification of `total_file_size.py`, a mini-batch callback module with two
entry points:

* `init()` — prints a single diagnostic line.
* `run(mini_batch)` — for each path in the ordered list `mini_batch`, calls
  `os.path.getsize`, appends the size to `file_size_list`, adds it to
  `total_file_size`, prints diagnostics, and returns `file_size_list`.

The filesystem is modelled as a partial map from path strings to byte sizes:
`some size` when the file is accessible, `none` when `os.path.getsize` would
raise an `OSError` (not found, permission denied, other I/O failure).  Sizes
are `Int`, since Python's `os.path.getsize` returns a Python `int`.
`print` output is modelled as a list of `LogMsg` values returned alongside
the result.  An `OSError` escaping `run` is modelled as `Except.error p`
carrying the path `p` whose lookup failed.
-/

namespace TotalFileSize

/-- Filesystem model: `fs p = some n` means the file at path `p` is accessible
and has byte size `n`; `fs p = none` means accessing it fails. -/
def FS : Type := String → Option Int

/-- `os.path.getsize`, relative to a filesystem `fs`. -/
def os_path_getsize (fs : FS) (file_path : String) : Option Int :=
  fs file_path

/-- One diagnostic line emitted by `print`.  Constructors mirror the four
print statements of the source module, keeping the data each one reports. -/
inductive LogMsg where
  | initLine : LogMsg
  | runStart (mini_batch : List String) : LogMsg
  | totalFileCount (n : Nat) : LogMsg
  | totalFileSize (n : Int) : LogMsg
  deriving DecidableEq, Repr

/-- The local variables of `run` that the loop reads or writes.  `mini_batch`
is the input list; the loop body could update it (as Python code could), so
keeping it in the frame lets us state that `run` in fact never does. -/
structure Frame where
  mini_batch : List String
  file_size_list : List Int
  total_file_size : Int
  deriving DecidableEq, Repr

/-- The `for file_path in mini_batch` loop of `run`: look up each file's
size, append it to `file_size_list` and add it to `total_file_size`.  A
failed lookup raises, modelled as `Except.error` carrying the offending path
and the frame at the moment of the raise. -/
def runLoop (fs : FS) (fr : Frame) : List String → Except (String × Frame) Frame
  | [] => Except.ok fr
  | file_path :: rest =>
    match os_path_getsize fs file_path with
    | some file_size =>
        runLoop fs
          { fr with
            file_size_list := fr.file_size_list ++ [file_size],
            total_file_size := fr.total_file_size + file_size }
          rest
    | none => Except.error (file_path, fr)

/-- `run` up to the end of its loop: the frame after the loop on success, or
the failing path together with the frame at the raise. -/
def runFinalFrame (fs : FS) (mini_batch : List String) :
    Except (String × Frame) Frame :=
  runLoop fs
    { mini_batch := mini_batch, file_size_list := [], total_file_size := 0 }
    mini_batch

/-- The `run` entry point: emits the start line and the file-count line,
runs the loop, and on success emits the total-size line and returns
`file_size_list`; a lookup failure propagates as an uncaught error. -/
def run (fs : FS) (mini_batch : List String) :
    List LogMsg × Except String (List Int) :=
  let header := [LogMsg.runStart mini_batch,
                 LogMsg.totalFileCount mini_batch.length]
  match runFinalFrame fs mini_batch with
  | Except.ok fr =>
      (header ++ [LogMsg.totalFileSize fr.total_file_size],
       Except.ok fr.file_size_list)
  | Except.error (file_path, _) => (header, Except.error file_path)

/-- Project the frame out of a loop outcome, whether it succeeded or raised. -/
def finalFrame : Except (String × Frame) Frame → Frame
  | Except.ok fr => fr
  | Except.error (_, fr) => fr

/-- The module holds no mutable global state, so its state type is `Unit`;
`init` threads it unchanged and emits the single `Init` line. -/
def init (moduleState : Unit) : Unit × List LogMsg :=
  (moduleState, [LogMsg.initLine])

/-- `n` consecutive invocations of `init`, threading the module state and
concatenating the diagnostic output. -/
def initCalls : Nat → Unit → Unit × List LogMsg
  | 0, s => (s, [])
  | n + 1, s =>
    let r1 := init s
    let r2 := initCalls n r1.1
    (r2.1, r1.2 ++ r2.2)

/-- A concrete filesystem for the spec's worked example: `a.txt` holds 5
bytes, `b.txt` holds 10 bytes, everything else is inaccessible. -/
def exampleFS : FS := fun p =>
  if p = "a.txt" then some 5 else if p = "b.txt" then some 10 else none

/-! ## Loop lemmas -/

/-- When every path in `l` is accessible with size `sizes p`, the loop
succeeds and appends exactly `l.map sizes` to the accumulator, adding its
sum to the running total, leaving `mini_batch` untouched. -/
theorem runLoop_ok_of_accessible (fs : FS) (sizes : String → Int) :
    ∀ (l : List String) (fr : Frame), (∀ p ∈ l, fs p = some (sizes p)) →
      runLoop fs fr l = Except.ok
        { mini_batch := fr.mini_batch,
          file_size_list := fr.file_size_list ++ l.map sizes,
          total_file_size := fr.total_file_size + (l.map sizes).sum } := by
  intro l
  induction l with
  | nil => intro fr h; simp [runLoop]
  | cons p rest ih =>
      intro fr h
      have hp : fs p = some (sizes p) := h p (by simp)
      simp only [runLoop, os_path_getsize, hp]
      rw [ih _ (fun q hq => h q (by simp [hq]))]
      simp [List.append_assoc, add_assoc]

/-- If the loop succeeds, every path it was given is accessible. -/
theorem runLoop_ok_forall_isSome (fs : FS) :
    ∀ (l : List String) (fr fr' : Frame), runLoop fs fr l = Except.ok fr' →
      ∀ p ∈ l, (fs p).isSome := by
  intro l
  induction l with
  | nil => intro fr fr' _ p hp; cases hp
  | cons q rest ih =>
      intro fr fr' h p hp
      rw [runLoop] at h
      cases hq : os_path_getsize fs q with
      | none => rw [hq] at h; cases h
      | some sz =>
          rw [hq] at h
          rcases List.mem_cons.mp hp with hpq | hpr
          · subst hpq
            rw [os_path_getsize] at hq
            simp [hq]
          · exact ih _ _ h p hpr

/-- When `mini_batch` splits as an accessible part followed by an
inaccessible path `bad`, the loop raises at `bad`, with exactly the sizes
of the accessible part accumulated at the moment of the raise. -/
theorem runLoop_error_at_first (fs : FS) (sizes : String → Int)
    (pre rest : List String) (bad : String)
    (hpre : ∀ p ∈ pre, fs p = some (sizes p)) (hbad : fs bad = none) :
    ∀ fr : Frame, runLoop fs fr (pre ++ bad :: rest) =
      Except.error (bad,
        { mini_batch := fr.mini_batch,
          file_size_list := fr.file_size_list ++ pre.map sizes,
          total_file_size := fr.total_file_size + (pre.map sizes).sum }) := by
  induction pre with
  | nil =>
      intro fr
      rw [List.nil_append, runLoop, os_path_getsize, hbad]
      simp
  | cons p ps ih =>
      intro fr
      have hp : fs p = some (sizes p) := hpre p (by simp)
      rw [List.cons_append]
      simp only [runLoop, os_path_getsize, hp]
      rw [ih (fun q hq => hpre q (by simp [hq]))]
      simp [List.append_assoc, add_assoc]

/-- The loop never writes to `mini_batch`: the frame it ends with (whether
by finishing or by raising) carries the same `mini_batch` it started with. -/
theorem runLoop_mini_batch_invariant (fs : FS) :
    ∀ (l : List String) (fr : Frame),
      (finalFrame (runLoop fs fr l)).mini_batch = fr.mini_batch := by
  intro l
  induction l with
  | nil => intro fr; rfl
  | cons p rest ih =>
      intro fr
      rw [runLoop]
      cases hq : os_path_getsize fs p with
      | none => rfl
      | some sz => exact ih _

/-! ## Claim theorems -/

/-- C3: for the empty input sequence, `run` returns the empty sequence and
does not raise. -/
theorem claim_C3_empty_batch (fs : FS) :
    (run fs []).2 = Except.ok ([] : List Int) := rfl

/-- C4: on the concrete batch `["a.txt", "b.txt"]`, with `a.txt` a 5-byte
file and `b.txt` a 10-byte file, `run` returns exactly `[5, 10]`. -/
theorem claim_C4_concrete_example :
    (run exampleFS ["a.txt", "b.txt"]).2 =
      Except.ok [(5 : Int), 10] := by
  rfl

/-- C5: `init` can be invoked any number of times without raising (it is a
total function of the module state), each invocation emits exactly one
diagnostic line, and the module state — of type `Unit`, since the module has
no mutable globals — is unchanged. -/
theorem claim_C5_init_idempotent_diagnostics (n : Nat) (s : Unit) :
    initCalls n s = (s, List.replicate n LogMsg.initLine) := by
  induction n with
  | zero => rfl
  | succ m ih =>
      rw [initCalls, init]
      simp [ih, List.replicate_succ]

/-- If some path in `l` is inaccessible, the loop raises, and the raised
error carries an inaccessible path drawn from `l`. -/
theorem runLoop_error_of_exists_none (fs : FS) :
    ∀ (l : List String) (fr : Frame), (∃ p ∈ l, fs p = none) →
      ∃ q fr', runLoop fs fr l = Except.error (q, fr') ∧ q ∈ l ∧ fs q = none := by
  intro l
  induction l with
  | nil => rintro fr ⟨p, hp, _⟩; cases hp
  | cons q rest ih =>
      rintro fr ⟨p, hp, hnone⟩
      cases hq : fs q with
      | none =>
          refine ⟨q, fr, ?_, by simp, hq⟩
          simp only [runLoop, os_path_getsize, hq]
      | some sz =>
          have hpr : p ∈ rest := by
            rcases List.mem_cons.mp hp with hpq | hpr
            · subst hpq; rw [hq] at hnone; cases hnone
            · exact hpr
          obtain ⟨q', fr', hrun, hq', hnone'⟩ := ih _ ⟨p, hpr, hnone⟩
          refine ⟨q', fr', ?_, by simp [hq'], hnone'⟩
          simp only [runLoop, os_path_getsize, hq]
          exact hrun

/-- Paths that are accessible are accessible with their reported size. -/
theorem accessible_some_getD (fs : FS) (mini_batch : List String)
    (h : ∀ p ∈ mini_batch, (fs p).isSome) :
    ∀ p ∈ mini_batch, fs p = some ((fun q => (fs q).getD 0) p) := by
  intro p hp
  have := h p hp
  cases hfp : fs p with
  | none => rw [hfp] at this; cases this
  | some n => simp [hfp]

/-- Inversion of a successful run: the final frame keeps `mini_batch`, its
`file_size_list` is the sizes of the input paths in order, and its
`total_file_size` is the sum of that list. -/
theorem runFinalFrame_ok_inversion (fs : FS) (mini_batch : List String)
    (fr : Frame) (h : runFinalFrame fs mini_batch = Except.ok fr) :
    fr.mini_batch = mini_batch ∧
    fr.file_size_list = mini_batch.map (fun q => (fs q).getD 0) ∧
    fr.total_file_size = fr.file_size_list.sum := by
  have hsome : ∀ p ∈ mini_batch, (fs p).isSome :=
    runLoop_ok_forall_isSome fs mini_batch _ fr h
  have hloop := runLoop_ok_of_accessible fs (fun q => (fs q).getD 0)
    mini_batch ⟨mini_batch, [], 0⟩ (accessible_some_getD fs mini_batch hsome)
  rw [runFinalFrame] at h
  rw [h] at hloop
  have hfr := Except.ok.inj hloop
  subst hfr
  simp

/-! ## Remaining claim theorems -/

/-- C1: for every ordered sequence of paths that are all accessible, `run`
returns a sequence of the same length, whose `i`-th element is the byte size
of the file at the `i`-th input path — same order, no reordering. -/
theorem claim_C1_sizes_in_order (fs : FS) (sizes : String → Int)
    (mini_batch : List String)
    (h : ∀ p ∈ mini_batch, fs p = some (sizes p)) :
    ∃ result : List Int, (run fs mini_batch).2 = Except.ok result ∧
      result.length = mini_batch.length ∧
      ∀ i : Nat, result.get? i = (mini_batch.get? i).map sizes := by
  have hloop := runLoop_ok_of_accessible fs sizes mini_batch
    ⟨mini_batch, [], 0⟩ h
  refine ⟨mini_batch.map sizes, ?_, by simp, ?_⟩
  · simp only [run, runFinalFrame] at hloop ⊢
    rw [hloop]
    simp
  · intro i
    exact List.get?_map sizes mini_batch i

/-- C1 witness: the theorem applied to the two-file example filesystem. -/
theorem claim_C1_witness :
    ∃ result : List Int,
      (run exampleFS ["a.txt", "b.txt"]).2 = Except.ok result ∧
      result.length = (["a.txt", "b.txt"] : List String).length ∧
      ∀ i : Nat, result.get? i =
        ((["a.txt", "b.txt"] : List String).get? i).map
          (fun p => if p = "a.txt" then (5 : Int) else 10) :=
  claim_C1_sizes_in_order exampleFS
    (fun p => if p = "a.txt" then (5 : Int) else 10)
    ["a.txt", "b.txt"] (by decide)

/-- C2: if some path in the batch is inaccessible, `run` raises a
file-access error naming an inaccessible path of the batch and returns no
(partial) result; conversely, when every path is accessible, `run` returns
a result and does not raise. -/
theorem claim_C2_error_propagation (fs : FS) (mini_batch : List String) :
    ((∃ p ∈ mini_batch, fs p = none) →
      ∃ q ∈ mini_batch, fs q = none ∧
        (run fs mini_batch).2 = Except.error q) ∧
    ((∀ p ∈ mini_batch, (fs p).isSome) →
      ∃ result, (run fs mini_batch).2 = Except.ok result) := by
  constructor
  · intro hex
    obtain ⟨q, fr', hrun, hq, hnone⟩ :=
      runLoop_error_of_exists_none fs mini_batch
        ⟨mini_batch, [], 0⟩ hex
    refine ⟨q, hq, hnone, ?_⟩
    simp only [run, runFinalFrame]
    rw [hrun]
  · intro hall
    have hloop := runLoop_ok_of_accessible fs (fun q => (fs q).getD 0)
      mini_batch ⟨mini_batch, [], 0⟩
      (accessible_some_getD fs mini_batch hall)
    refine ⟨mini_batch.map (fun q => (fs q).getD 0), ?_⟩
    simp only [run, runFinalFrame]
    rw [hloop]
    simp

/-- C2 witness: a batch containing only the inaccessible path `c.txt`
makes `run` raise at `c.txt`; the theorem is applied to that batch. -/
theorem claim_C2_witness :
    ∃ q ∈ (["c.txt"] : List String), exampleFS q = none ∧
      (run exampleFS ["c.txt"]).2 = Except.error q :=
  (claim_C2_error_propagation exampleFS ["c.txt"]).1
    ⟨"c.txt", by decide, by decide⟩

/-- C6: on every successful invocation, the emitted diagnostics include the
input count (the length of the batch) and the aggregate byte total (the sum
of the returned sizes). -/
theorem claim_C6_diagnostics (fs : FS) (mini_batch : List String)
    (result : List Int)
    (hok : (run fs mini_batch).2 = Except.ok result) :
    LogMsg.totalFileCount mini_batch.length ∈ (run fs mini_batch).1 ∧
    LogMsg.totalFileSize result.sum ∈ (run fs mini_batch).1 := by
  cases hfr : runFinalFrame fs mini_batch with
  | error e =>
      obtain ⟨p, fr⟩ := e
      simp only [run, hfr] at hok
      cases hok
  | ok fr =>
      obtain ⟨-, -, htot⟩ := runFinalFrame_ok_inversion fs mini_batch fr hfr
      simp only [run, hfr] at hok ⊢
      have hres : fr.file_size_list = result := Except.ok.inj hok
      constructor
      · simp
      · rw [← hres, ← htot]
        simp

/-- C6 witness: the theorem applied to the two-file example, where the
count is 2 and the total is 15. -/
theorem claim_C6_witness :
    LogMsg.totalFileCount (["a.txt", "b.txt"] : List String).length ∈
      (run exampleFS ["a.txt", "b.txt"]).1 ∧
    LogMsg.totalFileSize ([(5 : Int), 10]).sum ∈
      (run exampleFS ["a.txt", "b.txt"]).1 :=
  claim_C6_diagnostics exampleFS ["a.txt", "b.txt"] [5, 10] rfl

/-- C7: `run` treats its input as read-only — the loop threads the whole
local frame, in which `mini_batch` could be overwritten, and whether the
call succeeds or raises, the frame still holds the original input sequence.
The result list is built starting from a fresh empty `file_size_list`, and
the module keeps no state across calls (its state type is `Unit`). -/
theorem claim_C7_input_read_only (fs : FS) (mini_batch : List String) :
    (finalFrame (runFinalFrame fs mini_batch)).mini_batch = mini_batch := by
  rw [runFinalFrame]
  exact runLoop_mini_batch_invariant fs mini_batch _

/-- C8: when the size lookup never reports a negative size, every integer
in a successful result is non-negative, and so is the aggregate total that
gets logged (the sum of the result). -/
theorem claim_C8_nonneg (fs : FS) (mini_batch : List String)
    (result : List Int)
    (hnn : ∀ p n, fs p = some n → 0 ≤ n)
    (hok : (run fs mini_batch).2 = Except.ok result) :
    (∀ x ∈ result, 0 ≤ x) ∧ 0 ≤ result.sum := by
  have hmem : ∀ x ∈ result, 0 ≤ x := by
    cases hfr : runFinalFrame fs mini_batch with
    | error e =>
        obtain ⟨p, fr⟩ := e
        simp only [run, hfr] at hok
        cases hok
    | ok fr =>
        obtain ⟨-, hlist, -⟩ := runFinalFrame_ok_inversion fs mini_batch fr hfr
        simp only [run, hfr] at hok
        have hres : fr.file_size_list = result := Except.ok.inj hok
        intro x hx
        rw [← hres, hlist] at hx
        obtain ⟨p, hp, hpx⟩ := List.mem_map.mp hx
        have hsome : (fs p).isSome :=
          runLoop_ok_forall_isSome fs mini_batch _ fr hfr p hp
        cases hfp : fs p with
        | none => rw [hfp] at hsome; cases hsome
        | some n =>
            have : (fs p).getD 0 = n := by rw [hfp]; rfl
            rw [this] at hpx
            rw [← hpx]
            exact hnn p n hfp
  exact ⟨hmem, List.sum_nonneg hmem⟩

/-- C8 witness: the theorem applied to the example filesystem, whose two
reported sizes 5 and 10 are non-negative. -/
theorem claim_C8_witness :
    (∀ x ∈ [(5 : Int), 10], 0 ≤ x) ∧ 0 ≤ ([(5 : Int), 10]).sum :=
  claim_C8_nonneg exampleFS ["a.txt", "b.txt"] [5, 10]
    (by
      intro p n h
      unfold exampleFS at h
      split_ifs at h <;> simp_all <;> omega)
    rfl

/-- The loop is insensitive to the filesystem outside the paths it visits. -/
theorem runLoop_congr_on_batch (fs1 fs2 : FS) :
    ∀ (l : List String) (fr : Frame), (∀ p ∈ l, fs1 p = fs2 p) →
      runLoop fs1 fr l = runLoop fs2 fr l := by
  intro l
  induction l with
  | nil => intro fr _; rfl
  | cons p rest ih =>
      intro fr h
      have hp : fs1 p = fs2 p := h p (by simp)
      simp only [runLoop, os_path_getsize, hp]
      cases fs2 p with
      | none => rfl
      | some sz => exact ih _ (fun q hq => h q (by simp [hq]))

/-- C9: `run` is deterministic and depends on nothing but the input paths
and the file-size mapping — two filesystems that agree on every path of the
batch produce identical output (logs, result, and error alike). -/
theorem claim_C9_deterministic (fs1 fs2 : FS) (mini_batch : List String)
    (h : ∀ p ∈ mini_batch, fs1 p = fs2 p) :
    run fs1 mini_batch = run fs2 mini_batch := by
  simp only [run, runFinalFrame]
  rw [runLoop_congr_on_batch fs1 fs2 mini_batch _ h]

/-- A second filesystem agreeing with `exampleFS` on the example batch but
differing everywhere else. -/
def exampleFS2 : FS := fun p =>
  if p = "a.txt" then some 5 else if p = "b.txt" then some 10 else some 0

/-- C9 witness: the theorem applied to two filesystems that agree on the
batch but differ on `c.txt`. -/
theorem claim_C9_witness :
    run exampleFS ["a.txt", "b.txt"] = run exampleFS2 ["a.txt", "b.txt"] :=
  claim_C9_deterministic exampleFS exampleFS2 ["a.txt", "b.txt"] (by decide)

/-- C10: sizes are looked up strictly left-to-right, so when the batch is an
accessible part followed by the first inaccessible path `bad`, the raised
error is that of `bad`, and at the moment of the raise exactly the sizes of
the preceding accessible paths have been accumulated. -/
theorem claim_C10_fail_at_first_bad (fs : FS) (sizes : String → Int)
    (pre rest : List String) (bad : String)
    (hpre : ∀ p ∈ pre, fs p = some (sizes p)) (hbad : fs bad = none) :
    (run fs (pre ++ bad :: rest)).2 = Except.error bad ∧
    ∃ fr : Frame, runFinalFrame fs (pre ++ bad :: rest) =
        Except.error (bad, fr) ∧
      fr.file_size_list = pre.map sizes := by
  have h := runLoop_error_at_first fs sizes pre rest bad hpre hbad
    ⟨pre ++ bad :: rest, [], 0⟩
  constructor
  · simp only [run, runFinalFrame]
    rw [h]
  · exact ⟨_, by rw [runFinalFrame]; exact h, by simp⟩

/-- C10 witness: with `a.txt` accessible and `c.txt` missing, the batch
`["a.txt", "c.txt", "b.txt"]` fails at `c.txt` with only `a.txt`'s size
accumulated; the theorem is applied to that batch. -/
theorem claim_C10_witness :
    (run exampleFS (["a.txt"] ++ "c.txt" :: ["b.txt"])).2 =
      Except.error "c.txt" ∧
    ∃ fr : Frame, runFinalFrame exampleFS (["a.txt"] ++ "c.txt" :: ["b.txt"]) =
        Except.error ("c.txt", fr) ∧
      fr.file_size_list = (["a.txt"] : List String).map (fun _ => (5 : Int)) :=
  claim_C10_fail_at_first_bad exampleFS (fun _ => (5 : Int))
    ["a.txt"] ["b.txt"] "c.txt" (by decide) (by decide)

end TotalFileSize
